import Mathlib

/-!
Verification of the holiday/vacation ICS generator
(`scripts/generate_feiertage.py`) against its specification.

Strings are modelled as `List Char` (Python `str` is a sequence of code
points); byte strings as `List Nat` with every entry below 256.
-/

/-! ### Dates

Python `datetime.date` values are proleptic-Gregorian (year, month, day)
triples ordered lexicographically. `nextDay` models `d + timedelta(days=1)`.
-/

structure Date where
  year : Nat
  month : Nat
  day : Nat
deriving DecidableEq, Repr

/-- Gregorian leap-year rule, as used by `datetime.date` arithmetic. -/
def isLeap (y : Nat) : Bool :=
  y % 4 == 0 && (y % 100 != 0 || y % 400 == 0)

def daysInMonth (y m : Nat) : Nat :=
  if m = 2 then (if isLeap y then 29 else 28)
  else if m = 4 ∨ m = 6 ∨ m = 9 ∨ m = 11 then 30
  else 31

/-- `d + timedelta(days=1)` on a (year, month, day) triple. -/
def nextDay (d : Date) : Date :=
  if d.day < daysInMonth d.year d.month then ⟨d.year, d.month, d.day + 1⟩
  else if d.month < 12 then ⟨d.year, d.month + 1, 1⟩
  else ⟨d.year + 1, 1, 1⟩

/-- Strict date order: lexicographic on (year, month, day), matching the
ordering of Python `date` objects. -/
def dateLt (a b : Date) : Prop :=
  a.year < b.year ∨
    (a.year = b.year ∧ (a.month < b.month ∨ (a.month = b.month ∧ a.day < b.day)))

def dateLe (a b : Date) : Prop := dateLt a b ∨ a = b

instance (a b : Date) : Decidable (dateLt a b) := by
  unfold dateLt; infer_instance

instance (a b : Date) : Decidable (dateLe a b) := by
  unfold dateLe; infer_instance

theorem dateLt_nextDay (d : Date) : dateLt d (nextDay d) := by
  unfold nextDay dateLt
  by_cases h1 : d.day < daysInMonth d.year d.month
  · simp [h1]
  · by_cases h2 : d.month < 12 <;> simp [h1, h2]

theorem dateLe_lt_trans {a b c : Date} (hab : dateLe a b) (hbc : dateLt b c) :
    dateLt a c := by
  rcases hab with hab | rfl
  · unfold dateLt at hab hbc ⊢
    omega
  · exact hbc

/-! ### Easter computus

The repository derives movable feasts from Easter Sunday; the computus
itself is not part of the sources under verification, so it is modelled
from the specification. -/

/-- Modelled from the spec: `computeEasterSunday` (the "Anonymous Gregorian
algorithm"), absent from the extracted sources, computed with integer
floor division and modulo exactly as the spec prescribes. -/
def computeEasterSunday (year : Nat) : Date :=
  let a := year % 19
  let b := year / 100
  let c := year % 100
  let d := b / 4
  let e := b % 4
  let f := (b + 8) / 25
  let g := (b - f + 1) / 3
  let h := (19 * a + b - d - g + 15) % 30
  let i := c / 4
  let k := c % 4
  let l := (32 + 2 * e + 2 * i - h - k) % 7
  let m := (a + 11 * h + 22 * l) / 451
  let month := (h + l - 7 * m + 114) / 31
  let day := (h + l - 7 * m + 114) % 31 + 1
  ⟨year, month, day⟩

/-! ### UTF-8 encoding and lenient decoding

`str.encode("utf-8")` and `bytes.decode("utf-8", errors="ignore")`.
The decoder follows CPython: a byte sequence that is not a valid maximal
UTF-8 sequence is skipped (its longest valid prefix is consumed and
discarded, at least one byte) and decoding resumes; with `errors="ignore"`
nothing is emitted for it.  A truncated sequence at the end of the input
is likewise discarded. -/

/-- UTF-8 encoding of a single code point. -/
def utf8Bytes (c : Char) : List Nat :=
  let n := c.toNat
  if n < 0x80 then [n]
  else if n < 0x800 then [0xC0 + n / 0x40, 0x80 + n % 0x40]
  else if n < 0x10000 then
    [0xE0 + n / 0x1000, 0x80 + n / 0x40 % 0x40, 0x80 + n % 0x40]
  else
    [0xF0 + n / 0x40000, 0x80 + n / 0x1000 % 0x40, 0x80 + n / 0x40 % 0x40,
      0x80 + n % 0x40]

/-- `line.encode("utf-8")`. -/
def encodeUtf8 (s : List Char) : List Nat := (s.map utf8Bytes).flatten

/-- UTF-8 byte length of a string. -/
def utf8Length (s : List Char) : Nat := (encodeUtf8 s).length

/-- Is `b` a UTF-8 continuation byte (`0x80..0xBF`)? -/
def isCont (b : Nat) : Bool := 0x80 ≤ b && b < 0xC0

/-- Admissible first continuation byte after lead `b` (excludes overlong
forms, surrogates and code points above `U+10FFFF`, as CPython does). -/
def validCont1 (b c : Nat) : Bool :=
  if b = 0xE0 then 0xA0 ≤ c && c < 0xC0
  else if b = 0xED then 0x80 ≤ c && c < 0xA0
  else if b = 0xF0 then 0x90 ≤ c && c < 0xC0
  else if b = 0xF4 then 0x80 ≤ c && c < 0x90
  else isCont c

/-- `bytes.decode("utf-8", errors="ignore")`. -/
def decodeIgnore : List Nat → List Char
  | [] => []
  | b :: bs =>
    if b < 0x80 then Char.ofNat b :: decodeIgnore bs
    else if b < 0xC2 then decodeIgnore bs
    else if b < 0xE0 then
      match bs with
      | [] => []
      | c1 :: bs1 =>
        if isCont c1 then
          Char.ofNat ((b - 0xC0) * 0x40 + (c1 - 0x80)) :: decodeIgnore bs1
        else decodeIgnore (c1 :: bs1)
    else if b < 0xF0 then
      match bs with
      | [] => []
      | c1 :: bs1 =>
        if validCont1 b c1 then
          match bs1 with
          | [] => []
          | c2 :: bs2 =>
            if isCont c2 then
              Char.ofNat ((b - 0xE0) * 0x1000 + (c1 - 0x80) * 0x40 + (c2 - 0x80)) ::
                decodeIgnore bs2
            else decodeIgnore (c2 :: bs2)
        else decodeIgnore (c1 :: bs1)
    else if b < 0xF5 then
      match bs with
      | [] => []
      | c1 :: bs1 =>
        if validCont1 b c1 then
          match bs1 with
          | [] => []
          | c2 :: bs2 =>
            if isCont c2 then
              match bs2 with
              | [] => []
              | c3 :: bs3 =>
                if isCont c3 then
                  Char.ofNat ((b - 0xF0) * 0x40000 + (c1 - 0x80) * 0x1000 +
                      (c2 - 0x80) * 0x40 + (c3 - 0x80)) :: decodeIgnore bs3
                else decodeIgnore (c3 :: bs3)
            else decodeIgnore (c2 :: bs2)
        else decodeIgnore (c1 :: bs1)
    else decodeIgnore bs

/-- Python `sep.join(parts)`. -/
def joinSep (sep : List Char) : List (List Char) → List Char
  | [] => []
  | [x] => x
  | x :: xs => x ++ sep ++ joinSep sep xs

/-- The fold separator inserted by `ics_fold`: CRLF plus one space. -/
def foldSep : List Char := ['\r', '\n', ' ']

/-- The chunking loop of `ics_fold` (`while pos < len(encoded): ...`),
from the second iteration on: every chunk takes 74 bytes. -/
def foldLoop (encoded : List Nat) (pos : Nat) : List (List Char) :=
  if pos < encoded.length then
    decodeIgnore ((encoded.drop pos).take 74) :: foldLoop encoded (pos + 74)
  else []
termination_by encoded.length - pos
decreasing_by omega

/-- `ics_fold`: RFC 5545 line folding, max 75 octets per line, continuation
lines prefixed with one space. -/
def ics_fold (line : List Char) : List Char :=
  let encoded := encodeUtf8 line
  if encoded.length ≤ 75 then line
  else joinSep foldSep (decodeIgnore (encoded.take 75) :: foldLoop encoded 75)

/-- Byte-level view of the split performed by `ics_fold` after the first
75-byte chunk: successive chunks of 74 bytes. -/
def contChunks (bs : List Nat) : List (List Nat) :=
  if bs.isEmpty then [] else bs.take 74 :: contChunks (bs.drop 74)
termination_by bs.length
decreasing_by cases bs <;> simp_all [List.isEmpty_iff] <;> omega

/-- Byte-level view of the whole split performed by `ics_fold` on a line
longer than 75 octets: a 75-byte chunk, then 74-byte chunks. -/
def foldChunks (bs : List Nat) : List (List Nat) :=
  bs.take 75 :: contChunks (bs.drop 75)

theorem contChunks_nil : contChunks [] = [] := by
  rw [contChunks]; rfl

theorem contChunks_cons (bs : List Nat) (h : bs ≠ []) :
    contChunks bs = bs.take 74 :: contChunks (bs.drop 74) := by
  rw [contChunks]
  simp [List.isEmpty_iff, h]

theorem contChunks_flatten (bs : List Nat) : (contChunks bs).flatten = bs := by
  induction bs using contChunks.induct with
  | case1 bs hempty =>
    simp only [List.isEmpty_iff] at hempty
    simp [hempty, contChunks_nil]
  | case2 bs hempty ih =>
    simp only [List.isEmpty_iff] at hempty
    rw [contChunks_cons bs hempty]
    simp [ih]

theorem foldChunks_flatten (bs : List Nat) : (foldChunks bs).flatten = bs := by
  unfold foldChunks
  simp [contChunks_flatten]

theorem contChunks_mem_length {bs : List Nat} {c : List Nat}
    (hc : c ∈ contChunks bs) : 0 < c.length ∧ c.length ≤ 74 := by
  induction bs using contChunks.induct with
  | case1 bs hempty =>
    simp only [List.isEmpty_iff] at hempty
    rw [hempty, contChunks_nil] at hc
    cases hc
  | case2 bs hempty ih =>
    simp only [List.isEmpty_iff] at hempty
    rw [contChunks_cons bs hempty] at hc
    rcases List.mem_cons.mp hc with rfl | hmem
    · have hpos := List.length_pos.mpr hempty
      constructor
      · simp only [List.length_take]
        omega
      · simp [List.length_take]
    · exact ih hmem

theorem contChunks_dropLast_length {bs : List Nat} {c : List Nat}
    (hc : c ∈ (contChunks bs).dropLast) : c.length = 74 := by
  induction bs using contChunks.induct with
  | case1 bs hempty =>
    simp only [List.isEmpty_iff] at hempty
    rw [hempty, contChunks_nil] at hc
    cases hc
  | case2 bs hempty ih =>
    simp only [List.isEmpty_iff] at hempty
    rw [contChunks_cons bs hempty] at hc
    by_cases hrest : bs.drop 74 = []
    · rw [hrest, contChunks_nil] at hc
      cases hc
    · have hne : contChunks (bs.drop 74) ≠ [] := by
        rw [contChunks_cons _ hrest]; simp
      rw [List.dropLast_cons_of_ne_nil hne] at hc
      rcases List.mem_cons.mp hc with rfl | hmem
      · have hlen : 74 < bs.length := by
          by_contra hle
          exact hrest (List.drop_eq_nil_of_le (by omega))
        simp [List.length_take]; omega
      · exact ih hmem

theorem foldLoop_eq_contChunks (encoded : List Nat) (pos : Nat) :
    foldLoop encoded pos = (contChunks (encoded.drop pos)).map decodeIgnore := by
  induction pos using foldLoop.induct encoded with
  | case1 pos hlt ih =>
    rw [foldLoop]
    simp only [hlt, if_pos]
    have hne : encoded.drop pos ≠ [] := by
      intro hnil
      have := congrArg List.length hnil
      simp [List.length_drop] at this
      omega
    rw [contChunks_cons _ hne]
    simp only [List.map_cons, List.drop_drop] at *
    rw [ih]
  | case2 pos hlt =>
    rw [foldLoop]
    simp only [hlt, if_neg, ite_false]
    have hdrop : encoded.drop pos = [] := List.drop_eq_nil_of_le (by omega)
    rw [hdrop, contChunks_nil]
    simp

theorem ics_fold_short {line : List Char} (h : utf8Length line ≤ 75) :
    ics_fold line = line := by
  unfold ics_fold
  simp only [utf8Length] at h
  simp [h]

theorem ics_fold_eq_chunks {line : List Char} (h : 75 < utf8Length line) :
    ics_fold line =
      joinSep foldSep ((foldChunks (encodeUtf8 line)).map decodeIgnore) := by
  unfold ics_fold foldChunks
  simp only [utf8Length] at h
  rw [if_neg (by omega)]
  rw [foldLoop_eq_contChunks]
  simp

theorem contChunks_small {bs : List Nat} (h1 : bs ≠ []) (h2 : bs.length ≤ 74) :
    contChunks bs = [bs] := by
  rw [contChunks_cons bs h1, List.take_of_length_le h2,
    List.drop_eq_nil_of_le h2, contChunks_nil]

/-! ### ASCII round-trip facts -/

theorem utf8Bytes_ascii {c : Char} (h : c.toNat < 0x80) :
    utf8Bytes c = [c.toNat] := by
  unfold utf8Bytes
  simp [h]

theorem encodeUtf8_ascii {s : List Char} (h : ∀ c ∈ s, c.toNat < 0x80) :
    encodeUtf8 s = s.map Char.toNat := by
  induction s with
  | nil => rfl
  | cons c cs ih =>
    unfold encodeUtf8 at *
    simp only [List.map_cons, List.flatten_cons]
    rw [utf8Bytes_ascii (h c (by simp)), ih (fun x hx => h x (by simp [hx]))]
    rfl

theorem decodeIgnore_ascii {bs : List Nat} (h : ∀ b ∈ bs, b < 0x80) :
    decodeIgnore bs = bs.map Char.ofNat := by
  induction bs with
  | nil => rfl
  | cons b rest ih =>
    have hb : b < 0x80 := h b (by simp)
    rw [decodeIgnore.eq_def]
    simp only [hb, if_pos, List.map_cons]
    rw [ih (fun x hx => h x (by simp [hx]))]

/-! ### `str.join` facts -/

theorem joinSep_cons (sep : List Char) (x : List Char) {xs : List (List Char)}
    (h : xs ≠ []) : joinSep sep (x :: xs) = x ++ sep ++ joinSep sep xs := by
  cases xs with
  | nil => exact absurd rfl h
  | cons y ys => rfl

theorem joinSep_cons_flat (sep : List Char) {b : List (List Char)}
    (hb : b ≠ []) (C : List (List Char)) :
    joinSep sep (joinSep sep b :: C) = joinSep sep (b ++ C) := by
  induction b with
  | nil => exact absurd rfl hb
  | cons x b' ih =>
    by_cases hb' : b' = []
    · subst hb'
      rfl
    · have hbc : b' ++ C ≠ [] := by simp [hb']
      rw [List.cons_append, joinSep_cons sep x hbc, ← ih hb',
        joinSep_cons sep x hb']
      cases C with
      | nil => simp [joinSep]
      | cons c C' =>
        rw [joinSep_cons sep (x ++ sep ++ joinSep sep b')
            (show c :: C' ≠ [] by simp),
          joinSep_cons sep (joinSep sep b') (show c :: C' ≠ [] by simp)]
        simp [List.append_assoc]

theorem joinSep_middle (sep : List Char) (A : List (List Char))
    {b : List (List Char)} (hb : b ≠ []) (C : List (List Char)) :
    joinSep sep (A ++ joinSep sep b :: C) = joinSep sep (A ++ (b ++ C)) := by
  induction A with
  | nil => simpa using joinSep_cons_flat sep hb C
  | cons a A' ih =>
    have h1 : A' ++ joinSep sep b :: C ≠ [] := by simp
    have h2 : A' ++ (b ++ C) ≠ [] := by
      cases b with
      | nil => exact absurd rfl hb
      | cons x xs => simp
    rw [List.cons_append, joinSep_cons sep a h1, List.cons_append,
      joinSep_cons sep a h2, ih]

theorem joinSep_blocks (sep : List Char) (A : List (List Char))
    (bs : List (List (List Char))) (B : List (List Char))
    (hbs : ∀ b ∈ bs, b ≠ []) :
    joinSep sep (A ++ bs.map (joinSep sep) ++ B) =
      joinSep sep (A ++ bs.flatten ++ B) := by
  induction bs generalizing A with
  | nil => simp
  | cons b bs' ih =>
    have hb : b ≠ [] := hbs b (by simp)
    have hrest : ∀ x ∈ bs', x ≠ [] := fun x hx => hbs x (by simp [hx])
    simp only [List.map_cons, List.flatten_cons]
    have e1 : A ++ (joinSep sep b :: bs'.map (joinSep sep)) ++ B =
        A ++ joinSep sep b :: (bs'.map (joinSep sep) ++ B) := by simp
    rw [e1, joinSep_middle sep A hb, ← List.append_assoc A b,
      ← List.append_assoc, ih (A ++ b) hrest]
    simp

/-- C1: `ics_fold` returns a line unchanged when its UTF-8 encoding is at
most 75 octets (in particular at exactly 75); otherwise it splits the
encoding into a leading 75-byte chunk followed by continuation chunks of
74 bytes (the final one possibly shorter, but never empty), joined — after
decoding — by a line break plus a single space; a 76-byte line yields
exactly two chunks of 75 and 1 bytes. -/
theorem ics_fold_split_spec (line : List Char) :
    (utf8Length line ≤ 75 → ics_fold line = line) ∧
    (utf8Length line = 75 → ics_fold line = line) ∧
    (75 < utf8Length line →
      ics_fold line =
        joinSep foldSep ((foldChunks (encodeUtf8 line)).map decodeIgnore) ∧
      (foldChunks (encodeUtf8 line)).flatten = encodeUtf8 line ∧
      ((foldChunks (encodeUtf8 line)).map List.length).head? = some 75 ∧
      (∀ c ∈ (foldChunks (encodeUtf8 line)).tail, 0 < c.length ∧ c.length ≤ 74) ∧
      (∀ c ∈ (foldChunks (encodeUtf8 line)).tail.dropLast, c.length = 74)) ∧
    (utf8Length line = 76 →
      (foldChunks (encodeUtf8 line)).map List.length = [75, 1]) := by
  refine ⟨fun h => ics_fold_short h, fun h => ics_fold_short (by omega), ?_, ?_⟩
  · intro h
    refine ⟨ics_fold_eq_chunks h, foldChunks_flatten _, ?_, ?_, ?_⟩
    · unfold foldChunks
      simp only [utf8Length] at h
      simp [List.length_take]
      omega
    · intro c hc
      unfold foldChunks at hc
      simp only [List.tail_cons] at hc
      exact contChunks_mem_length hc
    · intro c hc
      unfold foldChunks at hc
      simp only [List.tail_cons] at hc
      exact contChunks_dropLast_length hc
  · intro h
    simp only [utf8Length] at h
    unfold foldChunks
    have hd : (encodeUtf8 line).drop 75 ≠ [] := by
      intro hnil
      have := congrArg List.length hnil
      simp [List.length_drop] at this
      omega
    have hdl : ((encodeUtf8 line).drop 75).length ≤ 74 := by
      simp [List.length_drop]
      omega
    rw [contChunks_small hd hdl]
    simp [List.length_take, List.length_drop, h]

/-- Witness for C1 at concrete inputs: a 75-byte ASCII line is returned
unchanged, and a 76-byte line is split into byte chunks of sizes 75, 1. -/
theorem ics_fold_split_spec_witness :
    ics_fold (List.replicate 75 'x') = List.replicate 75 'x' ∧
    (foldChunks (encodeUtf8 (List.replicate 76 'x'))).map List.length = [75, 1] :=
  ⟨(ics_fold_split_spec (List.replicate 75 'x')).2.1 (by decide),
    (ics_fold_split_spec (List.replicate 76 'x')).2.2.2 (by decide)⟩

/-- C6: a fold boundary that falls inside a multi-byte UTF-8 sequence makes
the partially-split byte sequence disappear silently during per-chunk
decoding (the decoding is total, so folding cannot fail): `ics_fold` is the
join of the leniently decoded byte chunks, and on a line of 38 two-byte
characters (76 octets) the trailing lead byte of the first chunk and the
orphan continuation byte of the second chunk are both dropped, leaving 37
characters plus an empty continuation segment. -/
theorem ics_fold_boundary_drop :
    (∀ line : List Char, 75 < utf8Length line →
      ics_fold line =
        joinSep foldSep ((foldChunks (encodeUtf8 line)).map decodeIgnore)) ∧
    decodeIgnore ((encodeUtf8 (List.replicate 38 'ä')).take 75) =
      List.replicate 37 'ä' ∧
    decodeIgnore ((encodeUtf8 (List.replicate 38 'ä')).drop 75) = [] ∧
    ics_fold (List.replicate 38 'ä') = List.replicate 37 'ä' ++ foldSep := by
  refine ⟨fun line h => ics_fold_eq_chunks h, by decide, by decide, ?_⟩
  rw [ics_fold_eq_chunks (by decide)]
  unfold foldChunks
  have hdrop : (encodeUtf8 (List.replicate 38 'ä')).drop 75 = [164] := by decide
  rw [hdrop, contChunks_small (by simp) (by simp)]
  simp only [List.map_cons, List.map_nil]
  have h1 : decodeIgnore ((encodeUtf8 (List.replicate 38 'ä')).take 75) =
      List.replicate 37 'ä' := by decide
  have h2 : decodeIgnore [164] = [] := by decide
  rw [h1, h2]
  rfl

/-- Witness for C6's universally quantified part at a concrete over-long
line. -/
theorem ics_fold_boundary_drop_witness :
    ics_fold (List.replicate 40 'ä') =
      joinSep foldSep
        ((foldChunks (encodeUtf8 (List.replicate 40 'ä'))).map decodeIgnore) :=
  ics_fold_boundary_drop.1 (List.replicate 40 'ä') (by decide)

/-- C10: folding an ASCII line containing no CR and no LF is lossless —
the decoded segments of `ics_fold`, with the inserted CRLF-space
separators removed, concatenate back to the original line. -/
theorem ics_fold_ascii_lossless (line : List Char)
    (hascii : ∀ c ∈ line, c.toNat < 0x80)
    (hnocrlf : ∀ c ∈ line, c ≠ '\r' ∧ c ≠ '\n') :
    ∃ segs : List (List Char),
      ics_fold line = joinSep foldSep segs ∧ segs.flatten = line := by
  by_cases h : utf8Length line ≤ 75
  · exact ⟨[line], by rw [ics_fold_short h]; rfl, by simp⟩
  · refine ⟨(foldChunks (encodeUtf8 line)).map decodeIgnore,
      ics_fold_eq_chunks (by omega), ?_⟩
    have henc : encodeUtf8 line = line.map Char.toNat := encodeUtf8_ascii hascii
    have hchunk : ∀ c ∈ foldChunks (encodeUtf8 line), ∀ b ∈ c, b < 0x80 := by
      intro c hc b hb
      have hbmem : b ∈ (foldChunks (encodeUtf8 line)).flatten :=
        List.mem_flatten.mpr ⟨c, hc, hb⟩
      rw [foldChunks_flatten, henc] at hbmem
      rcases List.mem_map.mp hbmem with ⟨ch, hch, rfl⟩
      exact hascii ch hch
    have hmap : (foldChunks (encodeUtf8 line)).map decodeIgnore =
        (foldChunks (encodeUtf8 line)).map (List.map Char.ofNat) := by
      apply List.map_congr_left
      intro c hc
      exact decodeIgnore_ascii (hchunk c hc)
    rw [hmap, ← List.map_flatten, foldChunks_flatten, henc]
    simp [List.map_map, Function.comp_def, Char.ofNat_toNat]

/-- Witness for C10 at a concrete 80-character ASCII line. -/
theorem ics_fold_ascii_lossless_witness :
    ∃ segs : List (List Char),
      ics_fold (List.replicate 80 'a') = joinSep foldSep segs ∧
        segs.flatten = List.replicate 80 'a' :=
  ics_fold_ascii_lossless (List.replicate 80 'a') (by decide) (by decide)

/-! ### Event date pairs (exclusive-end convention) -/

/-- The (DTSTART, DTEND) date pair of a public-holiday event
(`write_feiertage`, lines 121–123): the end is the holiday's date plus one
day. -/
def feiertagEventDates (day : Date) : Date × Date := (day, nextDay day)

/-- The (DTSTART, DTEND) date pair of a school-vacation event
(`write_ferien`, lines 195–197): the API end date is the last inclusive
day, so the exclusive DTEND is that date plus one day. -/
def ferienEventDates (start incl_end : Date) : Date × Date :=
  (start, nextDay incl_end)

/-- Boolean check that Easter of year `y` keeps the year and lands in March
or April. -/
def easterMarchApril (y : Nat) : Bool :=
  ((computeEasterSunday y).year == y) &&
    ((computeEasterSunday y).month == 3 || (computeEasterSunday y).month == 4)

set_option maxRecDepth 2000 in
theorem easterMarchApril_range :
    ((List.range 201).all fun i => easterMarchApril (1900 + i)) = true := by
  decide

/-- C3: the modelled `computeEasterSunday` keeps the input year, lands in
March or April for every year 1900–2100, and matches the reference values
for 2024 (March 31) and 2025 (April 20). -/
theorem computeEasterSunday_spec :
    (∀ y : Nat, 1900 ≤ y → y ≤ 2100 →
      (computeEasterSunday y).year = y ∧
        ((computeEasterSunday y).month = 3 ∨ (computeEasterSunday y).month = 4)) ∧
    computeEasterSunday 2024 = ⟨2024, 3, 31⟩ ∧
    computeEasterSunday 2025 = ⟨2025, 4, 20⟩ := by
  refine ⟨?_, by decide, by decide⟩
  intro y h1 h2
  have hall := easterMarchApril_range
  rw [List.all_eq_true] at hall
  have hy := hall (y - 1900) (List.mem_range.mpr (by omega))
  rw [show 1900 + (y - 1900) = y by omega] at hy
  unfold easterMarchApril at hy
  simp only [Bool.and_eq_true, Bool.or_eq_true, beq_iff_eq] at hy
  exact hy

/-- Witness for C3's bounded-range part at the concrete year 2024. -/
theorem computeEasterSunday_spec_witness :
    (computeEasterSunday 2024).year = 2024 ∧
      ((computeEasterSunday 2024).month = 3 ∨
        (computeEasterSunday 2024).month = 4) :=
  computeEasterSunday_spec.1 2024 (by omega) (by omega)

/-- C5: every event built by the program has `end > start`: a
public-holiday event ends exactly one day after its start, and a
school-vacation event ends one day after the record's inclusive end date,
which exceeds the start whenever the source end date is not before the
start date. -/
theorem event_end_after_start :
    (∀ day : Date,
      (feiertagEventDates day).2 = nextDay day ∧
        dateLt (feiertagEventDates day).1 (feiertagEventDates day).2) ∧
    (∀ start incl_end : Date, dateLe start incl_end →
      dateLt (ferienEventDates start incl_end).1
        (ferienEventDates start incl_end).2) :=
  ⟨fun day => ⟨rfl, dateLt_nextDay day⟩,
    fun _ _ h => dateLe_lt_trans h (dateLt_nextDay _)⟩

/-- Witness for C5 at a concrete vacation record (Jan 2 – Jan 10, 2024). -/
theorem event_end_after_start_witness :
    dateLt (ferienEventDates ⟨2024, 1, 2⟩ ⟨2024, 1, 10⟩).1
      (ferienEventDates ⟨2024, 1, 2⟩ ⟨2024, 1, 10⟩).2 :=
  event_end_after_start.2 ⟨2024, 1, 2⟩ ⟨2024, 1, 10⟩ (by decide)

/-! ### SHA-256 (`hashlib.sha256`), on byte lists, words as `Nat` mod 2^32 -/

/-- Truncation to a 32-bit word. -/
def w32 (n : Nat) : Nat := n % 4294967296

/-- 32-bit right rotation by `n`. -/
def rotr32 (n x : Nat) : Nat := w32 (x / 2 ^ n + x % 2 ^ n * 2 ^ (32 - n))

def sha256K : List Nat :=
  [1116352408, 1899447441, 3049323471, 3921009573, 961987163,
   1508970993, 2453635748, 2870763221, 3624381080, 310598401,
   607225278, 1426881987, 1925078388, 2162078206, 2614888103,
   3248222580, 3835390401, 4022224774, 264347078, 604807628,
   770255983, 1249150122, 1555081692, 1996064986, 2554220882,
   2821834349, 2952996808, 3210313671, 3336571891, 3584528711,
   113926993, 338241895, 666307205, 773529912, 1294757372,
   1396182291, 1695183700, 1986661051, 2177026350, 2456956037,
   2730485921, 2820302411, 3259730800, 3345764771, 3516065817,
   3600352804, 4094571909, 275423344, 430227734, 506948616,
   659060556, 883997877, 958139571, 1322822218, 1537002063,
   1747873779, 1955562222, 2024104815, 2227730452, 2361852424,
   2428436474, 2756734187, 3204031479, 3329325298]

/-- The eight 32-bit working variables of SHA-256. -/
structure Hash8 where
  a : Nat
  b : Nat
  c : Nat
  d : Nat
  e : Nat
  f : Nat
  g : Nat
  h : Nat

def sha256Init : Hash8 :=
  ⟨1779033703, 3144134277, 1013904242, 2773480762,
   1359893119, 2600822924, 528734635, 1541459225⟩

/-- Big-endian 8-byte encoding of the message bit length. -/
def lenBytes (bitLen : Nat) : List Nat :=
  [bitLen / 2 ^ 56 % 256, bitLen / 2 ^ 48 % 256, bitLen / 2 ^ 40 % 256,
   bitLen / 2 ^ 32 % 256, bitLen / 2 ^ 24 % 256, bitLen / 2 ^ 16 % 256,
   bitLen / 2 ^ 8 % 256, bitLen % 256]

/-- SHA-256 padding: `0x80`, zeros to 56 mod 64, then the 64-bit length. -/
def padMessage (msg : List Nat) : List Nat :=
  let zeros := (64 - (msg.length + 9) % 64) % 64
  msg ++ 0x80 :: (List.replicate zeros 0 ++ lenBytes (msg.length * 8))

/-- Split into 64-byte blocks (fuel-driven; fuel `l.length` suffices). -/
def chunk64 : Nat → List Nat → List (List Nat)
  | 0, _ => []
  | _, [] => []
  | fuel + 1, l => l.take 64 :: chunk64 fuel (l.drop 64)

def toBlocks (l : List Nat) : List (List Nat) := chunk64 l.length l

/-- The sixteen big-endian 32-bit words of a 64-byte block. -/
def blockWords (block : List Nat) : List Nat :=
  (List.range 16).map fun i =>
    block.getD (4 * i) 0 * 0x1000000 + block.getD (4 * i + 1) 0 * 0x10000 +
      block.getD (4 * i + 2) 0 * 0x100 + block.getD (4 * i + 3) 0

def smallSigma0 (x : Nat) : Nat := rotr32 7 x ^^^ rotr32 18 x ^^^ x / 2 ^ 3

def smallSigma1 (x : Nat) : Nat := rotr32 17 x ^^^ rotr32 19 x ^^^ x / 2 ^ 10

def bigSigma0 (x : Nat) : Nat := rotr32 2 x ^^^ rotr32 13 x ^^^ rotr32 22 x

def bigSigma1 (x : Nat) : Nat := rotr32 6 x ^^^ rotr32 11 x ^^^ rotr32 25 x

/-- Extend the sixteen block words to the 64-entry message schedule. -/
def extendWords (ws : List Nat) : List Nat :=
  (List.range 48).foldl
    (fun acc _ =>
      let n := acc.length
      acc ++ [w32 (acc.getD (n - 16) 0 + smallSigma0 (acc.getD (n - 15) 0) +
        acc.getD (n - 7) 0 + smallSigma1 (acc.getD (n - 2) 0))])
    ws

def chV (e f g : Nat) : Nat := e &&& f ^^^ (0xffffffff ^^^ e) &&& g

def majV (a b c : Nat) : Nat := a &&& b ^^^ a &&& c ^^^ b &&& c

/-- One SHA-256 round for round constant and schedule word `kw`. -/
def sha256Round (st : Hash8) (kw : Nat × Nat) : Hash8 :=
  let t1 := w32 (st.h + bigSigma1 st.e + chV st.e st.f st.g + kw.1 + kw.2)
  let t2 := w32 (bigSigma0 st.a + majV st.a st.b st.c)
  ⟨w32 (t1 + t2), st.a, st.b, st.c, w32 (st.d + t1), st.e, st.f, st.g⟩

/-- Compress one 64-byte block into the running hash state. -/
def compressBlock (st : Hash8) (block : List Nat) : Hash8 :=
  let ws := extendWords (blockWords block)
  let r := (sha256K.zip ws).foldl sha256Round st
  ⟨w32 (st.a + r.a), w32 (st.b + r.b), w32 (st.c + r.c), w32 (st.d + r.d),
   w32 (st.e + r.e), w32 (st.f + r.f), w32 (st.g + r.g), w32 (st.h + r.h)⟩

/-- Big-endian 4-byte encoding of a 32-bit word. -/
def word4 (w : Nat) : List Nat :=
  [w / 0x1000000 % 256, w / 0x10000 % 256, w / 0x100 % 256, w % 256]

/-- The 32-byte SHA-256 digest of a byte string. -/
def sha256Bytes (msg : List Nat) : List Nat :=
  let fin := (toBlocks (padMessage msg)).foldl compressBlock sha256Init
  word4 fin.a ++ word4 fin.b ++ word4 fin.c ++ word4 fin.d ++
    word4 fin.e ++ word4 fin.f ++ word4 fin.g ++ word4 fin.h

/-- Lowercase hexadecimal digit for `n < 16`. -/
def hexDigit (n : Nat) : Char :=
  if n < 10 then Char.ofNat (48 + n) else Char.ofNat (87 + n)

/-- Lowercase hexadecimal rendering of a byte string (`.hexdigest()`). -/
def hexDigest (bytes : List Nat) : List Char :=
  (bytes.map fun b => [hexDigit (b / 16), hexDigit (b % 16)]).flatten

/-- `hashlib.sha256(raw).hexdigest()` on a byte string. -/
def sha256Hex (msg : List Nat) : List Char := hexDigest (sha256Bytes msg)

/-! ### Stable UIDs and date rendering -/

/-- Decimal rendering of `n`, left-padded with zeros to `w` digits. -/
def padNum (w n : Nat) : List Char :=
  let ds := Nat.toDigits 10 n
  List.replicate (w - ds.length) '0' ++ ds

/-- `dtstart.strftime("%Y%m%d")`. -/
def formatYYYYMMDD (d : Date) : List Char :=
  padNum 4 d.year ++ padNum 2 d.month ++ padNum 2 d.day

/-- `make_uid`: first 8 hex characters of the SHA-256 of the UTF-8 encoding
of the summary concatenated with the `YYYYMMDD` date. -/
def make_uid (summary : List Char) (dtstart : Date) : List Char :=
  (sha256Hex (encodeUtf8 (summary ++ formatYYYYMMDD dtstart))).take 8

/-- The sixteen lowercase hexadecimal digits. -/
def hexAlphabet : List Char := "0123456789abcdef".toList

theorem hexDigest_length (bs : List Nat) : (hexDigest bs).length = 2 * bs.length := by
  induction bs with
  | nil => rfl
  | cons b rest ih =>
    unfold hexDigest at *
    simp only [List.map_cons, List.flatten_cons, List.length_append, ih]
    simp
    omega

theorem sha256Bytes_length (msg : List Nat) : (sha256Bytes msg).length = 32 := by
  unfold sha256Bytes word4
  simp

theorem sha256Bytes_lt (msg : List Nat) : ∀ b ∈ sha256Bytes msg, b < 256 := by
  intro b hb
  unfold sha256Bytes word4 at hb
  simp only [List.mem_append, List.mem_cons, List.not_mem_nil, or_false] at hb
  rcases hb with ((((((h | h) | h) | h) | h) | h) | h) | h <;>
    rcases h with h | h | h | h <;> omega

theorem hexDigest_mem {bs : List Nat} (hbs : ∀ b ∈ bs, b < 256) :
    ∀ ch ∈ hexDigest bs, ch ∈ hexAlphabet := by
  intro ch hch
  unfold hexDigest at hch
  rcases List.mem_flatten.mp hch with ⟨l, hl, hchl⟩
  rcases List.mem_map.mp hl with ⟨b, hb, rfl⟩
  have hb256 := hbs b hb
  have hdig : ∀ n < 16, hexDigit n ∈ hexAlphabet := by decide
  simp only [List.mem_cons, List.not_mem_nil, or_false] at hchl
  rcases hchl with rfl | rfl
  · exact hdig _ (by omega)
  · exact hdig _ (by omega)

/-- C2: `make_uid` is exactly the first 8 hex characters of the SHA-256 of
the UTF-8 encoding of the summary followed by the `YYYYMMDD` date; it is
always an 8-character string over the lowercase hex alphabet, and it is
deterministic in (summary, date). -/
theorem make_uid_spec :
    (∀ (summary : List Char) (dtstart : Date),
      make_uid summary dtstart =
        (sha256Hex (encodeUtf8 (summary ++ formatYYYYMMDD dtstart))).take 8) ∧
    (∀ (summary : List Char) (dtstart : Date),
      (make_uid summary dtstart).length = 8) ∧
    (∀ (summary : List Char) (dtstart : Date),
      ∀ ch ∈ make_uid summary dtstart, ch ∈ hexAlphabet) ∧
    (∀ (s1 s2 : List Char) (d1 d2 : Date), s1 = s2 → d1 = d2 →
      make_uid s1 d1 = make_uid s2 d2) := by
  refine ⟨fun summary dtstart => rfl, ?_, ?_, ?_⟩
  · intro summary dtstart
    unfold make_uid
    rw [List.length_take, sha256Hex, hexDigest_length, sha256Bytes_length]
    omega
  · intro summary dtstart ch hch
    unfold make_uid at hch
    have hch64 := List.mem_of_mem_take hch
    exact hexDigest_mem (sha256Bytes_lt _) ch hch64
  · intro s1 s2 d1 d2 hs hd
    rw [hs, hd]

set_option maxRecDepth 40000 in
/-- Witness for C2 at the concrete summary `"N"` and date 2024-01-01,
whose uid is `f567079d`: its first character is in the hex alphabet, and
the call is deterministic. -/
theorem make_uid_spec_witness :
    'f' ∈ hexAlphabet ∧
      make_uid ['N'] ⟨2024, 1, 1⟩ = make_uid ['N'] ⟨2024, 1, 1⟩ :=
  ⟨make_uid_spec.2.2.1 ['N'] ⟨2024, 1, 1⟩ 'f' (by decide),
    make_uid_spec.2.2.2 ['N'] ['N'] ⟨2024, 1, 1⟩ ⟨2024, 1, 1⟩ rfl rfl⟩

/-! ### Event and document rendering -/

def PRODID : List Char := "ics.tools skjerns patch".toList

def URL : List Char := "https://ics.tools".toList

def CRLF : List Char := ['\r', '\n']

/-- The eleven lines of one VEVENT block, in the fixed order of the
`lines` list in `vevent` (source lines 99–111). -/
def eventLines (summary : List Char) (dtstart dtend : Date)
    (timestamp : List Char) : List (List Char) :=
  ["BEGIN:VEVENT".toList,
   "DTSTART;VALUE=DATE:".toList ++ formatYYYYMMDD dtstart,
   "DTEND;VALUE=DATE:".toList ++ formatYYYYMMDD dtend,
   "SUMMARY:".toList ++ summary,
   ics_fold ("UID:".toList ++ make_uid summary dtstart),
   "URL:".toList ++ URL,
   "CREATED:".toList ++ timestamp,
   "LAST-MODIFIED:".toList ++ timestamp,
   "DTSTAMP:".toList ++ timestamp,
   "TRANSP:TRANSPARENT".toList,
   "END:VEVENT".toList]

/-- `vevent`: the CRLF-join of the block's lines. -/
def vevent (summary : List Char) (dtstart dtend : Date)
    (timestamp : List Char) : List Char :=
  joinSep CRLF (eventLines summary dtstart dtend timestamp)

/-- The event-construction loop of `write_feiertage` (lines 120–123): one
event per holiday, ending one day after its start. -/
def feiertage_events (hols : List (Date × List Char))
    (timestamp : List Char) : List (List Char) :=
  hols.map fun h => vevent h.2 h.1 (nextDay h.1) timestamp

/-- The three header lines of a calendar document (lines 126–128). -/
def headerLines : List (List Char) :=
  ["BEGIN:VCALENDAR".toList, "VERSION:2.0".toList, "PRODID:".toList ++ PRODID]

/-- The four footer lines of a calendar document (lines 130–133). -/
def footerLines (cal_name : List Char) : List (List Char) :=
  ["NAME:".toList ++ cal_name, "X-WR-CALNAME:".toList ++ cal_name,
   "METHOD:PUBLISH".toList, "END:VCALENDAR".toList]

/-- Document assembly (lines 125–135): header parts, event strings, footer
parts, CRLF-joined, plus a trailing CRLF. -/
def render_document (events : List (List Char)) (cal_name : List Char) :
    List Char :=
  joinSep CRLF (headerLines ++ events ++ footerLines cal_name) ++ CRLF

/-- The document text written by `write_feiertage` for fetched holidays
`hols`, modulo the file-system write. -/
def write_feiertage_content (hols : List (Date × List Char))
    (cal_name timestamp : List Char) : List Char :=
  render_document (feiertage_events hols timestamp) cal_name

/-- C4: the rendered document is the CRLF-join of the three fixed header
lines, then — for each input event in order — its eleven lines in fixed
field order (begin; start date; end date; summary; folded uid; url;
created, last-modified and stamp all equal to the run timestamp;
transparency; end), then the four footer lines (calendar name twice under
two field names, publish method, end marker), terminated by a trailing
CRLF. -/
theorem render_document_structure (hols : List (Date × List Char))
    (cal_name timestamp : List Char) :
    write_feiertage_content hols cal_name timestamp =
      joinSep CRLF
        (["BEGIN:VCALENDAR".toList, "VERSION:2.0".toList,
            "PRODID:".toList ++ PRODID] ++
          (hols.map fun h => eventLines h.2 h.1 (nextDay h.1) timestamp).flatten ++
          ["NAME:".toList ++ cal_name, "X-WR-CALNAME:".toList ++ cal_name,
            "METHOD:PUBLISH".toList, "END:VCALENDAR".toList]) ++ CRLF := by
  unfold write_feiertage_content render_document feiertage_events headerLines
    footerLines
  congr 1
  have hmap : (hols.map fun h => vevent h.2 h.1 (nextDay h.1) timestamp) =
      (hols.map fun h => eventLines h.2 h.1 (nextDay h.1) timestamp).map
        (joinSep CRLF) := by
    rw [List.map_map]
    rfl
  rw [hmap]
  exact joinSep_blocks CRLF _ _ _ (fun b hb => by
    rcases List.mem_map.mp hb with ⟨h, _, rfl⟩
    simp [eventLines])

/-! ### Sorting of fetched holidays -/

theorem dateLt_trans {a b c : Date} (hab : dateLt a b) (hbc : dateLt b c) :
    dateLt a c := by
  unfold dateLt at hab hbc ⊢
  omega

theorem dateLt_total (a b : Date) : dateLt a b ∨ a = b ∨ dateLt b a := by
  rcases a with ⟨ay, am, ad⟩
  rcases b with ⟨by_, bm, bd⟩
  unfold dateLt
  simp only [Date.mk.injEq]
  omega

/-- Python tuple comparison on (date, name) pairs: date first, then the
name string (code-point lexicographic). -/
def pairLe (a b : Date × List Char) : Prop :=
  dateLt a.1 b.1 ∨ (a.1 = b.1 ∧ a.2 ≤ b.2)

instance (a b : Date × List Char) : Decidable (pairLe a b) := by
  unfold pairLe; infer_instance

/-- `fetch_feiertage_api` post-processing (lines 71–74): Python `sorted`
over (date, name) tuples, modelled by a stable merge sort under the tuple
order. -/
def sort_feiertage (entries : List (Date × List Char)) :
    List (Date × List Char) :=
  entries.mergeSort fun a b => decide (pairLe a b)

/-- One school-vacation record of the OpenHolidays API: ISO start and end
date strings and a list of (language, text) name variants. -/
structure FerienRecord where
  startDate : List Char
  endDate : List Char
  name : List (List Char × List Char)
deriving DecidableEq

/-- The school-vacation sort (line 193): `sorted` with the record's
`startDate` string as key. -/
def sort_ferien (recs : List FerienRecord) : List FerienRecord :=
  recs.mergeSort fun a b => decide (a.startDate ≤ b.startDate)

theorem pairLe_trans {a b c : Date × List Char}
    (hab : pairLe a b) (hbc : pairLe b c) : pairLe a c := by
  rcases hab with h1 | ⟨e1, n1⟩
  · rcases hbc with h2 | ⟨e2, n2⟩
    · exact Or.inl (dateLt_trans h1 h2)
    · exact Or.inl (e2 ▸ h1)
  · rcases hbc with h2 | ⟨e2, n2⟩
    · exact Or.inl (e1 ▸ h2)
    · exact Or.inr ⟨e1.trans e2, le_trans n1 n2⟩

theorem pairLe_total (a b : Date × List Char) : pairLe a b ∨ pairLe b a := by
  rcases dateLt_total a.1 b.1 with h | h | h
  · exact Or.inl (Or.inl h)
  · rcases le_total a.2 b.2 with hn | hn
    · exact Or.inl (Or.inr ⟨h, hn⟩)
    · exact Or.inr (Or.inr ⟨h.symm, hn⟩)
  · exact Or.inr (Or.inl h)

/-- C7: both fetch paths order their entries: the public-holiday list is
sorted ascending by date (a permutation of the fetched entries sorted by
the (date, name) tuple), and the school-vacation path emits its records
sorted ascending by start date. -/
theorem holidays_sorted :
    (∀ entries : List (Date × List Char),
      List.Sorted (fun a b => dateLe a.1 b.1) (sort_feiertage entries) ∧
        (sort_feiertage entries).Perm entries) ∧
    (∀ recs : List FerienRecord,
      List.Sorted (fun a b : FerienRecord => a.startDate ≤ b.startDate)
          (sort_ferien recs) ∧
        (sort_ferien recs).Perm recs) := by
  constructor
  · intro entries
    constructor
    · have hs := @List.sorted_mergeSort (Date × List Char)
        (fun a b : Date × List Char => decide (pairLe a b))
        (fun a b c h1 h2 => by
          simp only [decide_eq_true_eq] at *
          exact pairLe_trans h1 h2)
        (fun a b => by
          simp only [Bool.or_eq_true, decide_eq_true_eq]
          exact pairLe_total a b)
        entries
      refine hs.imp ?_
      intro a b hab
      simp only [decide_eq_true_eq] at hab
      rcases hab with h | ⟨h, _⟩
      · exact Or.inl h
      · exact Or.inr h
    · exact List.mergeSort_perm entries _
  · intro recs
    constructor
    · have hs := @List.sorted_mergeSort FerienRecord
        (fun a b : FerienRecord => decide (a.startDate ≤ b.startDate))
        (fun a b c h1 h2 => by
          simp only [decide_eq_true_eq] at *
          exact le_trans h1 h2)
        (fun a b => by
          simp only [Bool.or_eq_true, decide_eq_true_eq]
          exact le_total a.startDate b.startDate)
        recs
      refine hs.imp ?_
      intro a b hab
      simpa using hab
    · exact List.mergeSort_perm recs _

/-! ### State-code tables and lookup -/

/-- Python dict subscription `table[key]` over an association list with
distinct keys; `none` models the `KeyError` raised for an unknown key. -/
def dictLookup (key : List Char) :
    List (List Char × List Char) → Option (List Char)
  | [] => none
  | (k, v) :: rest => if key = k then some v else dictLookup key rest

/-- The `feiertage-api.de` land codes (source lines 20–37). -/
def FEIERTAGE_CODES : List (List Char × List Char) :=
  [("baden-württemberg".toList, "BW".toList),
   ("bayern".toList, "BY".toList),
   ("berlin".toList, "BE".toList),
   ("brandenburg".toList, "BB".toList),
   ("bremen".toList, "HB".toList),
   ("hamburg".toList, "HH".toList),
   ("hessen".toList, "HE".toList),
   ("mecklenburg-vorpommern".toList, "MV".toList),
   ("niedersachsen".toList, "NI".toList),
   ("nordrhein-westfalen".toList, "NW".toList),
   ("rheinland-pfalz".toList, "RP".toList),
   ("saarland".toList, "SL".toList),
   ("sachsen-anhalt".toList, "ST".toList),
   ("sachsen".toList, "SN".toList),
   ("schleswig-holstein".toList, "SH".toList),
   ("thüringen".toList, "TH".toList)]

/-- The OpenHolidays API subdivision codes (source lines 40–57). -/
def SUBDIVISION_CODES : List (List Char × List Char) :=
  [("baden-württemberg".toList, "DE-BW".toList),
   ("bayern".toList, "DE-BY".toList),
   ("berlin".toList, "DE-BE".toList),
   ("brandenburg".toList, "DE-BB".toList),
   ("bremen".toList, "DE-HB".toList),
   ("hamburg".toList, "DE-HH".toList),
   ("hessen".toList, "DE-HE".toList),
   ("mecklenburg-vorpommern".toList, "DE-MV".toList),
   ("niedersachsen".toList, "DE-NI".toList),
   ("nordrhein-westfalen".toList, "DE-NW".toList),
   ("rheinland-pfalz".toList, "DE-RP".toList),
   ("saarland".toList, "DE-SL".toList),
   ("sachsen-anhalt".toList, "DE-ST".toList),
   ("sachsen".toList, "DE-SN".toList),
   ("schleswig-holstein".toList, "DE-SH".toList),
   ("thüringen".toList, "DE-TH".toList)]

/-- `write_feiertage` (lines 115–135) up to I/O: the state-code lookup
(line 118) precedes event construction, so an unknown state produces no
document at all. -/
def write_feiertage_doc (state : List Char) (hols : List (Date × List Char))
    (cal_name timestamp : List Char) : Option (List Char) :=
  match dictLookup state FEIERTAGE_CODES with
  | none => none
  | some _ => some (write_feiertage_content hols cal_name timestamp)

/-- `write_ferien` (lines 182–217) up to I/O: the subdivision-code lookup
(line 184) precedes everything else, so an unknown state produces no
document at all. -/
def write_ferien_doc (state : List Char) (events : List (List Char))
    (cal_name : List Char) : Option (List Char) :=
  match dictLookup state SUBDIVISION_CODES with
  | none => none
  | some _ => some (render_document events cal_name)

theorem dictLookup_eq_none_iff (key : List Char)
    (t : List (List Char × List Char)) :
    dictLookup key t = none ↔ key ∉ t.map Prod.fst := by
  induction t with
  | nil => simp [dictLookup]
  | cons p rest ih =>
    rcases p with ⟨k, v⟩
    by_cases hk : key = k
    · subst hk
      simp [dictLookup]
    · simp [dictLookup, hk, ih]

/-- C8: the tables recognize exactly 16 state keys, and generation for a
state outside them fails at the lookup with no partial result (no
document is produced) on both the public-holiday and the school-vacation
paths. -/
theorem unknown_state_fails :
    FEIERTAGE_CODES.length = 16 ∧ SUBDIVISION_CODES.length = 16 ∧
    (∀ (state : List Char) (hols : List (Date × List Char))
        (cal_name timestamp : List Char),
      state ∉ FEIERTAGE_CODES.map Prod.fst →
        write_feiertage_doc state hols cal_name timestamp = none) ∧
    (∀ (state : List Char) (events : List (List Char)) (cal_name : List Char),
      state ∉ SUBDIVISION_CODES.map Prod.fst →
        write_ferien_doc state events cal_name = none) := by
  refine ⟨rfl, rfl, ?_, ?_⟩
  · intro state hols cal_name timestamp hstate
    unfold write_feiertage_doc
    rw [(dictLookup_eq_none_iff state FEIERTAGE_CODES).mpr hstate]
  · intro state events cal_name hstate
    unfold write_ferien_doc
    rw [(dictLookup_eq_none_iff state SUBDIVISION_CODES).mpr hstate]

/-- Witness for C8 at the unknown state `"kalifornien"`. -/
theorem unknown_state_fails_witness :
    write_feiertage_doc "kalifornien".toList [] [] [] = none ∧
      write_ferien_doc "kalifornien".toList [] [] = none :=
  ⟨unknown_state_fails.2.2.1 "kalifornien".toList [] [] [] (by decide),
    unknown_state_fails.2.2.2 "kalifornien".toList [] [] (by decide)⟩

/-! ### Deduplication of school-vacation records -/

/-- The (start, end) deduplication key of a record. -/
def ferienKey (r : FerienRecord) : List Char × List Char :=
  (r.startDate, r.endDate)

/-- The deduplication loop of `fetch_ferien_api` (lines 165–172): keep a
record only when its (start, end) key has not been seen yet. -/
def dedupLoop : List FerienRecord → List (List Char × List Char) →
    List FerienRecord
  | [], _ => []
  | r :: rest, seen =>
    if ferienKey r ∈ seen then dedupLoop rest seen
    else r :: dedupLoop rest (ferienKey r :: seen)

/-- `fetch_ferien_api`'s deduplication of the accumulated batch results. -/
def dedup_ferien (results : List FerienRecord) : List FerienRecord :=
  dedupLoop results []

theorem dedupLoop_sublist (l : List FerienRecord) :
    ∀ seen, List.Sublist (dedupLoop l seen) l := by
  induction l with
  | nil =>
    intro seen
    simp [dedupLoop]
  | cons r rest ih =>
    intro seen
    unfold dedupLoop
    by_cases h : ferienKey r ∈ seen
    · rw [if_pos h]
      exact (ih seen).cons r
    · rw [if_neg h]
      exact (ih (ferienKey r :: seen)).cons₂ r

theorem dedupLoop_filter (k : List Char × List Char) (l : List FerienRecord) :
    ∀ seen, (dedupLoop l seen).filter (fun r => decide (ferienKey r = k)) =
      if k ∈ seen then []
      else (l.filter fun r => decide (ferienKey r = k)).take 1 := by
  induction l with
  | nil =>
    intro seen
    simp [dedupLoop]
  | cons r rest ih =>
    intro seen
    unfold dedupLoop
    by_cases hseen : ferienKey r ∈ seen
    · rw [if_pos hseen, ih seen]
      by_cases hk : k ∈ seen
      · simp [hk]
      · have hne : ¬(ferienKey r = k) := fun he => hk (he ▸ hseen)
        simp [hk, List.filter_cons, hne]
    · rw [if_neg hseen]
      by_cases hrk : ferienKey r = k
      · subst hrk
        have hik := ih (ferienKey r :: seen)
        rw [if_pos (by simp)] at hik
        simp [List.filter_cons, hik, hseen]
      · have hik := ih (ferienKey r :: seen)
        by_cases hk : k ∈ seen
        · rw [if_pos (by simp [hk])] at hik
          simp [List.filter_cons, hrk, hik, hk]
        · have hcond : k ∉ ferienKey r :: seen := by
            intro hmem
            rcases List.mem_cons.mp hmem with he | he
            · exact hrk he.symm
            · exact hk he
          rw [if_neg hcond] at hik
          simp [List.filter_cons, hrk, hik, hk]

theorem dedupLoop_keys_nodup (l : List FerienRecord) :
    ∀ seen, ((dedupLoop l seen).map ferienKey).Nodup ∧
      ∀ k ∈ (dedupLoop l seen).map ferienKey, k ∉ seen := by
  induction l with
  | nil =>
    intro seen
    simp [dedupLoop]
  | cons r rest ih =>
    intro seen
    unfold dedupLoop
    by_cases h : ferienKey r ∈ seen
    · rw [if_pos h]
      exact ih seen
    · rw [if_neg h]
      obtain ⟨hnd, hnotin⟩ := ih (ferienKey r :: seen)
      simp only [List.map_cons]
      refine ⟨List.nodup_cons.mpr ⟨fun hmem => ?_, hnd⟩, fun k hk => ?_⟩
      · exact hnotin (ferienKey r) hmem (by simp)
      · rcases List.mem_cons.mp hk with rfl | hk'
        · exact h
        · exact fun hks => hnotin k hk' (by simp [hks])

/-- C9: the deduplication of `fetch_ferien_api` keeps exactly the first
occurrence of each (start, end) key in encounter order: the result is a
subsequence of the accumulated input (relative order preserved), no two
kept records share a key, and filtering at any key `k` yields precisely
the first input record with that key. -/
theorem dedup_first_occurrence (results : List FerienRecord) :
    List.Sublist (dedup_ferien results) results ∧
    ((dedup_ferien results).map ferienKey).Nodup ∧
    ∀ k : List Char × List Char,
      (dedup_ferien results).filter (fun r => decide (ferienKey r = k)) =
        (results.filter fun r => decide (ferienKey r = k)).take 1 := by
  refine ⟨dedupLoop_sublist results [], (dedupLoop_keys_nodup results []).1, ?_⟩
  intro k
  have hf := dedupLoop_filter k results []
  rw [if_neg (List.not_mem_nil k)] at hf
  exact hf
